import Mathlib

/-!
Shallow embedding of the 2048 game engine (`Game2048` in `engine.js`) and
proofs about its move resolver, history stack, status evaluation and events.

The JS class state is modelled as a `Game` structure; the `Math.random` draws
of the tile spawner are passed in as explicit oracle arguments; the
`onUpdate` / `onWin` / `onGameOver` callbacks are modelled as a list of
emitted events.  The transient field `this.moved` is reset at the start of
every `move` call and only read inside the same call, so it is modelled as a
move-local value rather than a state field.
-/

namespace Game2048

/-- A grid is the JS array-of-rows of numeric tile values. -/
abbrev Grid := List (List Nat)

/-- The four move directions accepted by `move`. -/
inductive Direction
  | left
  | right
  | up
  | down
deriving DecidableEq, Repr

/-- `transpose(grid)` from the source:
`grid[0].map((_, colIndex) => grid.map(row => row[colIndex]))`.
Out-of-range JS reads (never hit on well-formed grids) default to 0. -/
def transpose (grid : Grid) : Grid :=
  (List.range (grid.headD []).length).map
    (fun colIndex => grid.map (fun row => row.getD colIndex 0))

/-- `rotateGrid(grid, direction, reverse = false)` from the source.  The
`reverse` parameter is declared with a default but is never read in the
body. -/
def rotateGrid (grid : Grid) (direction : Direction) (reverse : Bool := false) : Grid :=
  match direction with
  | .left => grid
  | .right => grid.map List.reverse
  | .up => transpose grid
  | .down => (transpose grid).map List.reverse

/-- The merge scan inside `moveLeft`: walk the zero-filtered row left to
right; when two adjacent entries are equal push their doubled value, add it
to the score, record it, and skip past both (`i++` in the loop body);
otherwise push the entry unchanged.  Returns (merged row, score gained,
list of merged output values). -/
def compactMerge : List Nat → List Nat × Nat × List Nat
  | [] => ([], 0, [])
  | [x] => ([x], 0, [])
  | x :: y :: rest =>
    if x = y then
      let r := compactMerge rest
      (x * 2 :: r.1, x * 2 + r.2.1, x * 2 :: r.2.2)
    else
      let r := compactMerge (y :: rest)
      (x :: r.1, r.2.1, r.2.2)

/-- One row of `moveLeft`: filter out the zeros, run the merge scan, pad on
the right with zeros back to length `size`.  Returns (new row, score gained,
merged output values). -/
def moveLeftRow (size : Nat) (row : List Nat) : List Nat × Nat × List Nat :=
  let m := compactMerge (row.filter (fun v => v ≠ 0))
  (m.1 ++ List.replicate (size - m.1.length) 0, m.2.1, m.2.2)

/-- Result of `moveLeft` on a whole grid: the new grid, the total score
delta, the merged tiles as (row index, output value) pairs, and the
`this.moved` flag (set by a merge or by `!arraysEqual(row, newRow)`). -/
structure MoveLeftResult where
  grid : Grid
  score : Nat
  merged : List (Nat × Nat)
  moved : Bool
deriving DecidableEq, Repr

/-- `moveLeft` row by row, carrying the JS `rowIndex` of the enclosing
`grid.map((row, rowIndex) => ...)`. -/
def moveLeftRows (size : Nat) : Nat → List (List Nat) → MoveLeftResult
  | _, [] => ⟨[], 0, [], false⟩
  | rowIndex, row :: rest =>
    let m := moveLeftRow size row
    let rowMoved : Bool := decide (m.2.2 ≠ []) || decide (row ≠ m.1)
    let r := moveLeftRows size (rowIndex + 1) rest
    ⟨m.1 :: r.grid, m.2.1 + r.score,
      m.2.2.map (fun v => (rowIndex, v)) ++ r.merged,
      rowMoved || r.moved⟩

/-- `moveLeft(grid)` from the source. -/
def moveLeft (size : Nat) (grid : Grid) : MoveLeftResult :=
  moveLeftRows size 0 grid

/-- A history snapshot: a by-value copy of (grid, score). -/
structure Snapshot where
  grid : Grid
  score : Nat
deriving DecidableEq, Repr

/-- The `Game2048` instance state.  `history` is stored most-recent-first,
so the JS `push`-at-end / `shift`-from-front pair becomes cons / `dropLast`
and `pop` becomes taking the head. -/
structure Game where
  size : Nat
  grid : Grid
  score : Nat
  won : Bool
  over : Bool
  history : List Snapshot
  maxHistorySize : Nat
deriving DecidableEq, Repr

/-- Events fired through the engine's callbacks, in order.  `update` carries
the grid, the score, the merged list and the `undo` tag of the JS info
object. -/
inductive Ev
  | update (grid : Grid) (score : Nat) (merged : List (Nat × Nat)) (isUndo : Bool)
  | win
  | gameOver (score : Nat)
deriving DecidableEq, Repr

/-- `saveState()`: push a snapshot of the current grid and score, then drop
the oldest entry if the length exceeds `maxHistorySize`. -/
def saveState (g : Game) : Game :=
  let h : List Snapshot := ⟨g.grid, g.score⟩ :: g.history
  { g with history := if h.length > g.maxHistorySize then h.dropLast else h }

/-- `undo()`: pop the most recent snapshot, restore grid and score from it,
clear the `over` flag, fire the undo-tagged update, and return true; return
false on an empty history. -/
def undo (g : Game) : Game × Bool × List Ev :=
  match g.history with
  | [] => (g, false, [])
  | st :: rest =>
    ({ g with grid := st.grid, score := st.score, over := false, history := rest },
      true, [.update st.grid st.score [] true])

/-- `grid[i][j]`, with JS out-of-range reads defaulted to 0. -/
def cell (grid : Grid) (i j : Nat) : Nat := (grid.getD i []).getD j 0

/-- The empty-cell list collected by `addRandomTile`, in the source's
row-major order. -/
def emptyCells (size : Nat) (grid : Grid) : List (Nat × Nat) :=
  (List.range size).flatMap (fun i =>
    (List.range size).filterMap (fun j =>
      if cell grid i j = 0 then some (i, j) else none))

/-- `this.grid[row][col] = v`. -/
def setCell (grid : Grid) (i j v : Nat) : Grid :=
  grid.set i ((grid.getD i []).set j v)

/-- `addRandomTile()`.  The random draws are an oracle: `c` selects the
empty cell (the JS index `Math.floor(Math.random() * len)` is some index
below `len`, modelled as `c % len`) and `four` says whether the 10% branch
produced a 4 rather than a 2. -/
def addRandomTile (g : Game) (c : Nat) (four : Bool) : Game :=
  let e := emptyCells g.size g.grid
  if e.length = 0 then g
  else
    let p := e.getD (c % e.length) (0, 0)
    { g with grid := setCell g.grid p.1 p.2 (if four then 4 else 2) }

/-- `hasValue(value)`. -/
def hasValue (g : Game) (value : Nat) : Bool :=
  g.grid.any (fun row => row.contains value)

/-- `isGameOver()`: false if any cell is empty; otherwise false as soon as
some cell equals its right or down neighbour; else true.  The early-return
loops are expressed as an `all` over the same index ranges. -/
def isGameOver (g : Game) : Bool :=
  if g.grid.any (fun row => row.contains 0) then false
  else
    (List.range g.size).all (fun i => (List.range g.size).all (fun j =>
      !(decide (j < g.size - 1) && decide (cell g.grid i j = cell g.grid i (j + 1))) &&
      !(decide (i < g.size - 1) && decide (cell g.grid i j = cell g.grid (i + 1) j))))

/-- `move(direction)`: the engine's move entry point.  Returns the new
state, the JS return value (`none` models the bare `return` taken when the
game is over), and the events fired, in order.  `c`, `four` are the spawn
oracle for the one `addRandomTile` call a committed move makes. -/
def move (g : Game) (d : Direction) (c : Nat) (four : Bool) :
    Game × Option Bool × List Ev :=
  if g.over then (g, none, [])
  else
    let g1 := saveState g
    let mr := moveLeft g1.size (rotateGrid g1.grid d)
    let g2 := { g1 with
      grid := rotateGrid mr.grid d true,
      score := if mr.score > 0 then g1.score + mr.score else g1.score }
    if mr.moved then
      let g3 := addRandomTile g2 c four
      let winNow := !g3.won && hasValue g3 2048
      let g4 := { g3 with won := g3.won || winNow }
      let overNow := isGameOver g4
      let g5 := { g4 with over := g4.over || overNow }
      (g5, some true,
        [Ev.update g3.grid g3.score mr.merged false] ++
          (if winNow then [Ev.win] else []) ++
          (if overNow then [Ev.gameOver g5.score] else []))
    else
      (g2, some false, [])

/-- The constructor followed by `init()`: a 4×4 all-zero grid, score 0,
flags cleared, empty single-slot history, then two random tiles with
oracles (`c1`,`f1`) and (`c2`,`f2`). -/
def initState (c1 : Nat) (f1 : Bool) (c2 : Nat) (f2 : Bool) : Game :=
  let g0 : Game :=
    { size := 4, grid := List.replicate 4 (List.replicate 4 0), score := 0,
      won := false, over := false, history := [], maxHistorySize := 1 }
  addRandomTile (addRandomTile g0 c1 f1) c2 f2

/-- One externally driven interaction: a move request with its spawn oracle,
or an undo request. -/
inductive Step
  | mv (d : Direction) (c : Nat) (four : Bool)
  | und
deriving DecidableEq, Repr

/-- Run one step, returning the new state and the events it fired. -/
def stepRun (g : Game) : Step → Game × List Ev
  | .mv d c four => let r := move g d c four; (r.1, r.2.2)
  | .und => let r := undo g; (r.1, r.2.2)

/-- Run a whole interaction sequence, concatenating events in order. -/
def run (g : Game) : List Step → Game × List Ev
  | [] => (g, [])
  | s :: rest =>
    let r := stepRun g s
    let r2 := run r.1 rest
    (r2.1, r.2 ++ r2.2)

/-- Number of `onWin` firings in an event list. -/
def winEvents (evs : List Ev) : Nat :=
  (evs.filter (fun e => match e with | .win => true | _ => false)).length

/-- A legal tile value: empty, or a power of two that is at least 2. -/
def validCell (n : Nat) : Prop := n = 0 ∨ ∃ k : Nat, n = 2 ^ (k + 1)

/-- Every cell of the grid is a legal tile value. -/
def validGrid (grid : Grid) : Prop := ∀ row ∈ grid, ∀ v ∈ row, validCell v

/-! Basic projection lemmas about the state transformers. -/

theorem saveState_grid (g : Game) : (saveState g).grid = g.grid := rfl

theorem saveState_score (g : Game) : (saveState g).score = g.score := rfl

theorem saveState_size (g : Game) : (saveState g).size = g.size := rfl

theorem saveState_won (g : Game) : (saveState g).won = g.won := rfl

theorem saveState_over (g : Game) : (saveState g).over = g.over := rfl

theorem addRandomTile_score (g : Game) (c : Nat) (four : Bool) :
    (addRandomTile g c four).score = g.score := by
  unfold addRandomTile
  by_cases h : (emptyCells g.size g.grid).length = 0 <;> simp [h]

theorem addRandomTile_won (g : Game) (c : Nat) (four : Bool) :
    (addRandomTile g c four).won = g.won := by
  unfold addRandomTile
  by_cases h : (emptyCells g.size g.grid).length = 0 <;> simp [h]

theorem addRandomTile_over (g : Game) (c : Nat) (four : Bool) :
    (addRandomTile g c four).over = g.over := by
  unfold addRandomTile
  by_cases h : (emptyCells g.size g.grid).length = 0 <;> simp [h]

theorem addRandomTile_history (g : Game) (c : Nat) (four : Bool) :
    (addRandomTile g c four).history = g.history := by
  unfold addRandomTile
  by_cases h : (emptyCells g.size g.grid).length = 0 <;> simp [h]

theorem addRandomTile_size (g : Game) (c : Nat) (four : Bool) :
    (addRandomTile g c four).size = g.size := by
  unfold addRandomTile
  by_cases h : (emptyCells g.size g.grid).length = 0 <;> simp [h]

/-- A concrete full grid with no adjacent equal pair and no 180-degree
rotational symmetry; no direction can move it. -/
def gFull : Grid := [[2, 4, 8, 16], [4, 2, 4, 2], [2, 4, 2, 4], [4, 2, 4, 2]]

/-- A game state holding `gFull` with the game not over. -/
def sFull : Game :=
  { size := 4, grid := gFull, score := 7, won := false, over := false,
    history := [], maxHistorySize := 1 }

/-- A game state with an open grid on which a left move merges the two 2s. -/
def sOpen : Game :=
  { size := 4,
    grid := [[2, 2, 0, 0], [0, 0, 0, 0], [0, 0, 0, 0], [0, 0, 0, 0]],
    score := 5, won := false, over := false, history := [], maxHistorySize := 1 }

/-- On a state that is not over, a `move` whose `moveLeft` pass reports no
movement commits the re-rotated grid and the (unchanged) score, returns
`false` and fires no event. -/
theorem move_eq_of_not_moved (g : Game) (d : Direction) (c : Nat) (four : Bool)
    (hov : g.over = false)
    (h : (moveLeft g.size (rotateGrid g.grid d)).moved = false) :
    move g d c four =
      ({ saveState g with
          grid := rotateGrid (moveLeft g.size (rotateGrid g.grid d)).grid d true,
          score := if (moveLeft g.size (rotateGrid g.grid d)).score > 0
                   then g.score + (moveLeft g.size (rotateGrid g.grid d)).score
                   else g.score },
        some false, []) := by
  simp only [move, hov, Bool.false_eq_true, if_false, h, saveState_size, saveState_grid,
    saveState_score]

/-- The state the source calls `this` right after `this.grid` and
`this.score` are reassigned inside `move` (before the spawn): the saved
state with the re-rotated moved grid and the updated score. -/
def moveCommit (g : Game) (d : Direction) : Game :=
  { saveState g with
    grid := rotateGrid (moveLeft g.size (rotateGrid g.grid d)).grid d true,
    score := if (moveLeft g.size (rotateGrid g.grid d)).score > 0
             then g.score + (moveLeft g.size (rotateGrid g.grid d)).score
             else g.score }

/-- The state right after the `addRandomTile()` call of a committed move. -/
def moveSpawned (g : Game) (d : Direction) (c : Nat) (four : Bool) : Game :=
  addRandomTile (moveCommit g d) c four

theorem moveSpawned_score (g : Game) (d : Direction) (c : Nat) (four : Bool) :
    (moveSpawned g d c four).score =
      if (moveLeft g.size (rotateGrid g.grid d)).score > 0
      then g.score + (moveLeft g.size (rotateGrid g.grid d)).score
      else g.score := by
  unfold moveSpawned
  rw [addRandomTile_score]
  rfl

theorem moveSpawned_won (g : Game) (d : Direction) (c : Nat) (four : Bool) :
    (moveSpawned g d c four).won = g.won := by
  unfold moveSpawned
  rw [addRandomTile_won]
  rfl

theorem moveSpawned_history (g : Game) (d : Direction) (c : Nat) (four : Bool) :
    (moveSpawned g d c four).history = (saveState g).history := by
  unfold moveSpawned
  rw [addRandomTile_history]
  rfl

/-- On a state that is not over, a `move` whose `moveLeft` pass reports
movement commits, spawns, updates the flags and fires its events. -/
theorem move_eq_of_moved (g : Game) (d : Direction) (c : Nat) (four : Bool)
    (hov : g.over = false)
    (h : (moveLeft g.size (rotateGrid g.grid d)).moved = true) :
    move g d c four =
      (let mr := moveLeft g.size (rotateGrid g.grid d)
       let g3 := moveSpawned g d c four
       let winNow := !g3.won && hasValue g3 2048
       let g4 := { g3 with won := g3.won || winNow }
       let overNow := isGameOver g4
       let g5 := { g4 with over := g4.over || overNow }
       (g5, some true,
        [Ev.update g3.grid g3.score mr.merged false] ++
          (if winNow then [Ev.win] else []) ++
          (if overNow then [Ev.gameOver g5.score] else []))) := by
  simp only [move, moveSpawned, moveCommit, hov, Bool.false_eq_true, if_false, h, if_true,
    saveState_size, saveState_grid, saveState_score]

/-- C10: the `reverse` flag of `rotateGrid` has no effect: for every grid
and direction the transform with `reverse = true` coincides with the one
with `reverse = false`, because the parameter is never read. -/
theorem c10_reverse_flag_no_effect (g : Grid) (d : Direction) :
    rotateGrid g d true = rotateGrid g d false := by
  cases d <;> rfl

/-- C1: the claimed round trip `rotateGrid (rotateGrid g d) d true = g`
fails on the code for `d = down`: applying the down transform (transpose
then mirror) twice rotates the grid by 180 degrees instead of restoring it,
as this concrete grid shows. -/
theorem c1_rotate_roundtrip_fails_on_down :
    rotateGrid (rotateGrid [[2, 0, 0, 0], [0, 0, 0, 0], [0, 0, 0, 0], [0, 0, 0, 0]]
        Direction.down) Direction.down true ≠
      [[2, 0, 0, 0], [0, 0, 0, 0], [0, 0, 0, 0], [0, 0, 0, 0]] := by
  decide

/-- C2: no-op invariance fails on the code: on the full unmovable grid
`gFull` a `down` move returns `false` yet replaces the grid with its
180-degree rotation (score and non-zero count are unchanged, the grid is
not). -/
theorem c2_noop_down_move_changes_grid :
    (move sFull Direction.down 0 false).2.1 = some false ∧
      (move sFull Direction.down 0 false).1.grid ≠ sFull.grid := by
  constructor
  · decide
  · decide

/-- C3 counterexample: on `sFull` (empty history) a left move returns
`false`, yet the history afterwards is not the history before the call:
`move` calls `saveState` before knowing whether anything will move. -/
theorem c3_counterexample_history_changes :
    (move sFull Direction.left 0 false).2.1 = some false ∧
      (move sFull Direction.left 0 false).1.history ≠ sFull.history := by
  constructor
  · decide
  · decide

/-- C3 (amended): if the game is not over and `move d` returns `false`,
the history afterwards is the history produced by the unconditional
`saveState` at the start of the call (the pre-call state pushed, the oldest
entry dropped beyond `maxHistorySize`), and no `onUpdate`, `onWin` or
`onGameOver` event fires. -/
theorem c3_noop_fires_no_event (g : Game) (d : Direction) (c : Nat) (four : Bool)
    (hov : g.over = false) (hm : (move g d c four).2.1 = some false) :
    (move g d c four).1.history = (saveState g).history ∧
      (move g d c four).2.2 = [] := by
  by_cases h : (moveLeft g.size (rotateGrid g.grid d)).moved = true
  · rw [move_eq_of_moved g d c four hov h] at hm
    simp at hm
  · rw [move_eq_of_not_moved g d c four hov (by simpa using h)]
    exact ⟨rfl, rfl⟩

/-- C3 witness: the amended statement applied to the concrete no-op left
move on `sFull`. -/
theorem c3_noop_fires_no_event_witness :
    sFull.over = false ∧ (move sFull Direction.left 0 false).2.1 = some false ∧
      ((move sFull Direction.left 0 false).1.history = (saveState sFull).history ∧
        (move sFull Direction.left 0 false).2.2 = []) :=
  ⟨rfl, by decide, c3_noop_fires_no_event sFull Direction.left 0 false rfl (by decide)⟩

/-- C4: the single-row compact-and-merge with N = 4 sends [2,2,2,0] to
[4,2,0,0] (one merge worth 4, no chain), [4,4,4,4] to [8,8,0,0] (two
merges), and [2,2,4,4] to [4,8,0,0] with a score delta of exactly 12. -/
theorem c4_row_merge_examples :
    moveLeftRow 4 [2, 2, 2, 0] = ([4, 2, 0, 0], 4, [4]) ∧
      moveLeftRow 4 [4, 4, 4, 4] = ([8, 8, 0, 0], 16, [8, 8]) ∧
      moveLeftRow 4 [2, 2, 4, 4] = ([4, 8, 0, 0], 12, [4, 8]) := by
  decide

/-- The score accumulated by the merge scan equals the sum of the merged
output values it records: each merge is counted exactly once. -/
theorem compactMerge_score_eq_sum : ∀ l : List Nat, (compactMerge l).2.1 = (compactMerge l).2.2.sum
  | [] => rfl
  | [_] => rfl
  | x :: y :: rest => by
    by_cases h : x = y
    · have ih := compactMerge_score_eq_sum rest
      simp [compactMerge, h, ih]
    · have ih := compactMerge_score_eq_sum (y :: rest)
      simp [compactMerge, h, ih]

/-- Row version of `compactMerge_score_eq_sum`. -/
theorem moveLeftRow_score_eq_sum (size : Nat) (row : List Nat) :
    (moveLeftRow size row).2.1 = (moveLeftRow size row).2.2.sum := by
  simp [moveLeftRow, compactMerge_score_eq_sum]

/-- Grid version: the total `moveLeft` score delta is the sum of the output
values in its merged list. -/
theorem moveLeftRows_score_eq_sum (size : Nat) :
    ∀ (i : Nat) (rows : List (List Nat)),
      (moveLeftRows size i rows).score =
        ((moveLeftRows size i rows).merged.map Prod.snd).sum
  | _, [] => rfl
  | i, row :: rest => by
    have ih := moveLeftRows_score_eq_sum size (i + 1) rest
    have hrow := moveLeftRow_score_eq_sum size row
    simp [moveLeftRows, ih, hrow, List.map_map, Function.comp]

/-- C5: for a state that is not over, a successful move adds to the score
exactly the sum of the output values of the tiles merged by that move's
`moveLeft` pass, each merge counted once. -/
theorem c5_score_conservation (g : Game) (d : Direction) (c : Nat) (four : Bool)
    (hov : g.over = false) (hm : (move g d c four).2.1 = some true) :
    (move g d c four).1.score =
      g.score + ((moveLeft g.size (rotateGrid g.grid d)).merged.map Prod.snd).sum := by
  have hsum : (moveLeft g.size (rotateGrid g.grid d)).score =
      ((moveLeft g.size (rotateGrid g.grid d)).merged.map Prod.snd).sum :=
    moveLeftRows_score_eq_sum g.size 0 (rotateGrid g.grid d)
  by_cases h : (moveLeft g.size (rotateGrid g.grid d)).moved = true
  · rw [move_eq_of_moved g d c four hov h]
    dsimp only
    rw [moveSpawned_score]
    rw [← hsum]
    by_cases hs : (moveLeft g.size (rotateGrid g.grid d)).score > 0
    · rw [if_pos hs]
    · rw [if_neg hs]
      omega
  · rw [move_eq_of_not_moved g d c four hov (by simpa using h)] at hm
    simp at hm

/-- C5 witness: the concrete left move on `sOpen` merges the two 2s and the
score goes from 5 to 9. -/
theorem c5_score_conservation_witness :
    sOpen.over = false ∧ (move sOpen Direction.left 0 false).2.1 = some true ∧
      (move sOpen Direction.left 0 false).1.score =
        sOpen.score +
          ((moveLeft sOpen.size (rotateGrid sOpen.grid Direction.left)).merged.map
              Prod.snd).sum :=
  ⟨rfl, by decide, c5_score_conservation sOpen Direction.left 0 false rfl (by decide)⟩

/-- With at least one slot of capacity, `saveState` leaves the snapshot of
the current grid and score on top of the history. -/
theorem saveState_history_cons (g : Game) (hmax : 1 ≤ g.maxHistorySize) :
    ∃ t, (saveState g).history = ⟨g.grid, g.score⟩ :: t := by
  unfold saveState
  dsimp only
  split
  · rename_i hlen
    match hh : g.history with
    | [] => simp [hh, List.length] at hlen; omega
    | x :: rest =>
      exact ⟨(x :: rest).dropLast, rfl⟩
  · exact ⟨g.history, rfl⟩

/-- Whether or not anything moved, a `move` call on a state that is not
over leaves exactly the history written by its initial `saveState`. -/
theorem move_history (g : Game) (d : Direction) (c : Nat) (four : Bool)
    (hov : g.over = false) :
    (move g d c four).1.history = (saveState g).history := by
  by_cases h : (moveLeft g.size (rotateGrid g.grid d)).moved = true
  · rw [move_eq_of_moved g d c four hov h]
    dsimp only
    rw [moveSpawned_history]
  · rw [move_eq_of_not_moved g d c four hov (by simpa using h)]

/-- `undo` on a state with a non-empty history pops the top snapshot,
restores grid and score from it and clears the `over` flag. -/
theorem undo_of_history_cons (g : Game) (st : Snapshot) (t : List Snapshot)
    (h : g.history = st :: t) :
    undo g =
      ({ g with grid := st.grid, score := st.score, over := false, history := t },
        true, [.update st.grid st.score [] true]) := by
  unfold undo
  rw [h]

/-- C6: for a state that is not over with the engine's history capacity
(at least one slot), a committed move followed immediately by `undo`
returns true, restores the exact pre-move grid and score, and clears the
`over` flag a losing move may have set. -/
theorem c6_undo_roundtrip (g : Game) (d : Direction) (c : Nat) (four : Bool)
    (hov : g.over = false) (hmax : 1 ≤ g.maxHistorySize)
    (hm : (move g d c four).2.1 = some true) :
    (undo (move g d c four).1).2.1 = true ∧
      (undo (move g d c four).1).1.grid = g.grid ∧
      (undo (move g d c four).1).1.score = g.score ∧
      (undo (move g d c four).1).1.over = false := by
  obtain ⟨t, ht⟩ := saveState_history_cons g hmax
  have hh : (move g d c four).1.history = ⟨g.grid, g.score⟩ :: t := by
    rw [move_history g d c four hov, ht]
  rw [undo_of_history_cons (move g d c four).1 ⟨g.grid, g.score⟩ t hh]
  exact ⟨rfl, rfl, rfl, rfl⟩

/-- C6 witness: the concrete successful left move on `sOpen` undone. -/
theorem c6_undo_roundtrip_witness :
    (sOpen.over = false ∧ 1 ≤ sOpen.maxHistorySize ∧
        (move sOpen Direction.left 0 false).2.1 = some true) ∧
      ((undo (move sOpen Direction.left 0 false).1).2.1 = true ∧
        (undo (move sOpen Direction.left 0 false).1).1.grid = sOpen.grid ∧
        (undo (move sOpen Direction.left 0 false).1).1.score = sOpen.score ∧
        (undo (move sOpen Direction.left 0 false).1).1.over = false) :=
  ⟨⟨rfl, by decide, by decide⟩,
    c6_undo_roundtrip sOpen Direction.left 0 false rfl (by decide) (by decide)⟩

/-- No cell inside the size × size board is 0. -/
def noEmptyCell (size : Nat) (grid : Grid) : Prop :=
  ∀ i < size, ∀ j < size, cell grid i j ≠ 0

/-- No two horizontally- or vertically-adjacent cells hold equal values. -/
def noAdjacentEqual (size : Nat) (grid : Grid) : Prop :=
  ∀ i < size, ∀ j < size,
    (j + 1 < size → cell grid i j ≠ cell grid i (j + 1)) ∧
    (i + 1 < size → cell grid i j ≠ cell grid (i + 1) j)

/-- On a well-formed grid, the emptiness scan of `isGameOver` finds a zero
iff some in-range cell is zero. -/
theorem exists_zero_iff (size : Nat) (grid : Grid)
    (hlen : grid.length = size) (hrow : ∀ row ∈ grid, row.length = size) :
    (grid.any (fun row => row.contains 0) = true) ↔
      ∃ i, i < size ∧ ∃ j, j < size ∧ cell grid i j = 0 := by
  rw [List.any_eq_true]
  constructor
  · rintro ⟨row, hmem, hc⟩
    rw [List.elem_iff] at hc
    obtain ⟨i, hi, hieq⟩ := List.mem_iff_getElem.mp hmem
    obtain ⟨j, hj, hjeq⟩ := List.mem_iff_getElem.mp hc
    refine ⟨i, by omega, j, ?_, ?_⟩
    · have := hrow row hmem
      omega
    · unfold cell
      rw [List.getD_eq_getElem grid [] (by omega), hieq,
        List.getD_eq_getElem row 0 (by omega)]
      exact hjeq
  · rintro ⟨i, hi, j, hj, hcell⟩
    have hi' : i < grid.length := by omega
    refine ⟨grid[i], List.getElem_mem hi', ?_⟩
    rw [List.elem_iff]
    have hj' : j < grid[i].length := by
      have := hrow grid[i] (List.getElem_mem hi')
      omega
    unfold cell at hcell
    rw [List.getD_eq_getElem grid [] hi', List.getD_eq_getElem grid[i] 0 hj'] at hcell
    rw [← hcell]
    exact List.getElem_mem hj'

/-- The adjacency scan of `isGameOver` succeeds iff no two adjacent cells
are equal. -/
theorem loops_iff (size : Nat) (grid : Grid) :
    ((List.range size).all (fun i => (List.range size).all (fun j =>
      !(decide (j < size - 1) && decide (cell grid i j = cell grid i (j + 1))) &&
      !(decide (i < size - 1) && decide (cell grid i j = cell grid (i + 1) j)))) = true) ↔
    noAdjacentEqual size grid := by
  unfold noAdjacentEqual
  simp only [List.all_eq_true, List.mem_range, Bool.and_eq_true, Bool.not_eq_true',
    Bool.and_eq_false_iff, decide_eq_false_iff_not, decide_eq_true_eq]
  constructor
  · intro h i hi j hj
    have hh := h i hi j hj
    constructor
    · intro h1 heq
      rcases hh.1 with h2 | h2
      · exact h2 (by omega)
      · exact h2 heq
    · intro h1 heq
      rcases hh.2 with h2 | h2
      · exact h2 (by omega)
      · exact h2 heq
  · intro h i hi j hj
    have hh := h i hi j hj
    constructor
    · by_cases h1 : j < size - 1
      · exact Or.inr (hh.1 (by omega))
      · exact Or.inl h1
    · by_cases h1 : i < size - 1
      · exact Or.inr (hh.2 (by omega))
      · exact Or.inl h1

/-- C7: on a well-formed grid, `isGameOver` reports a loss iff the grid has
no empty cell and no two horizontally- or vertically-adjacent cells hold
equal values; in particular a full grid with an adjacent equal pair is not
classified Lost. -/
theorem c7_lost_iff (g : Game)
    (hlen : g.grid.length = g.size)
    (hrow : ∀ row ∈ g.grid, row.length = g.size) :
    isGameOver g = true ↔ noEmptyCell g.size g.grid ∧ noAdjacentEqual g.size g.grid := by
  unfold isGameOver
  by_cases hz : g.grid.any (fun row => row.contains 0) = true
  · rw [if_pos hz]
    simp only [Bool.false_eq_true, false_iff]
    rintro ⟨hne, -⟩
    obtain ⟨i, hi, j, hj, hcell⟩ := (exists_zero_iff g.size g.grid hlen hrow).mp hz
    exact hne i hi j hj hcell
  · rw [if_neg hz, loops_iff]
    constructor
    · intro hadj
      refine ⟨?_, hadj⟩
      intro i hi j hj hcell
      exact hz ((exists_zero_iff g.size g.grid hlen hrow).mpr ⟨i, hi, j, hj, hcell⟩)
    · exact fun h => h.2

/-- C7 witness: the classification applied to the concrete full unmovable
grid `gFull`, which `isGameOver` reports as lost. -/
theorem c7_lost_iff_witness :
    (sFull.grid.length = sFull.size ∧ ∀ row ∈ sFull.grid, row.length = sFull.size) ∧
      (isGameOver sFull = true ↔
        noEmptyCell sFull.size sFull.grid ∧ noAdjacentEqual sFull.size sFull.grid) :=
  ⟨⟨rfl, by decide⟩, c7_lost_iff sFull rfl (by decide)⟩

theorem winEvents_append (a b : List Ev) :
    winEvents (a ++ b) = winEvents a + winEvents b := by
  simp [winEvents, List.filter_append]

theorem winEvents_ite (p : Prop) [Decidable p] (a b : List Ev) :
    winEvents (if p then a else b) = if p then winEvents a else winEvents b := by
  split <;> rfl

/-- `undo` on an empty history is a no-op returning false. -/
theorem undo_of_history_nil (g : Game) (h : g.history = []) : undo g = (g, false, []) := by
  unfold undo
  rw [h]

/-- `undo` never touches the `won` flag and never fires `onWin`. -/
theorem undo_won (g : Game) : (undo g).1.won = g.won ∧ winEvents (undo g).2.2 = 0 := by
  rcases h : g.history with _ | ⟨st, t⟩
  · rw [undo_of_history_nil g h]
    exact ⟨rfl, rfl⟩
  · rw [undo_of_history_cons g st t h]
    exact ⟨rfl, rfl⟩

/-- One `move` call either leaves the `won` flag as it was and fires no
`onWin`, or turns it from false to true and fires `onWin` exactly once. -/
theorem move_won_winEvents (g : Game) (d : Direction) (c : Nat) (four : Bool) :
    ((move g d c four).1.won = g.won ∧ winEvents (move g d c four).2.2 = 0) ∨
      (g.won = false ∧ (move g d c four).1.won = true ∧
        winEvents (move g d c four).2.2 = 1) := by
  by_cases hov : g.over = true
  · unfold move
    rw [if_pos hov]
    exact Or.inl ⟨rfl, rfl⟩
  · have hov' : g.over = false := by simpa using hov
    by_cases hm : (moveLeft g.size (rotateGrid g.grid d)).moved = true
    · rw [move_eq_of_moved g d c four hov' hm]
      dsimp only
      rw [moveSpawned_won]
      by_cases hw : g.won = true
      · rw [hw]
        refine Or.inl ⟨by simp, ?_⟩
        simp [winEvents_append, winEvents_ite, winEvents]
      · have hw2 : g.won = false := by simpa using hw
        rw [hw2]
        by_cases hv : hasValue (moveSpawned g d c four) 2048 = true
        · refine Or.inr ⟨rfl, by simp [hv], ?_⟩
          simp [winEvents_append, winEvents_ite, winEvents, hv]
        · have hv2 : hasValue (moveSpawned g d c four) 2048 = false := by simpa using hv
          refine Or.inl ⟨by simp [hv2], ?_⟩
          simp [winEvents_append, winEvents_ite, winEvents, hv2]
    · rw [move_eq_of_not_moved g d c four hov' (by simpa using hm)]
      exact Or.inl ⟨rfl, rfl⟩

/-- Potential counting how many `onWin` firings are still possible. -/
def wonPot (g : Game) : Nat := if g.won then 0 else 1

/-- Along any interaction sequence, the `onWin` firings spend the potential
of the starting state: each firing flips `won` to true for good. -/
theorem run_winEvents_le (g : Game) : ∀ steps : List Step,
    winEvents (run g steps).2 + wonPot (run g steps).1 ≤ wonPot g
  | [] => by simp [run, winEvents]
  | s :: rest => by
    have ihr := run_winEvents_le (stepRun g s).1 rest
    have hstep : winEvents (stepRun g s).2 + wonPot (stepRun g s).1 ≤ wonPot g := by
      cases s with
      | mv d c four =>
        rcases move_won_winEvents g d c four with ⟨h1, h2⟩ | ⟨h1, h2, h3⟩
        · simp [stepRun, wonPot, h1, h2]
        · simp [stepRun, wonPot, h1, h2, h3]
      | und =>
        obtain ⟨h1, h2⟩ := undo_won g
        simp [stepRun, wonPot, h1, h2]
    have hrun : run g (s :: rest) =
        ((run (stepRun g s).1 rest).1, (stepRun g s).2 ++ (run (stepRun g s).1 rest).2) := rfl
    rw [hrun]
    dsimp only
    rw [winEvents_append]
    omega

/-- A fresh game session starts with the `won` flag cleared. -/
theorem initState_won (c1 : Nat) (f1 : Bool) (c2 : Nat) (f2 : Bool) :
    (initState c1 f1 c2 f2).won = false := by
  simp [initState, addRandomTile_won]


/-- Tile 0 is a legal value. -/
theorem validCell_zero : validCell 0 := Or.inl rfl

theorem validCell_two : validCell 2 := Or.inr ⟨0, rfl⟩

theorem validCell_four : validCell 4 := Or.inr ⟨1, rfl⟩

/-- Doubling a legal tile value yields a legal tile value. -/
theorem validCell_double (v : Nat) (h : validCell v) : validCell (v * 2) := by
  rcases h with h | ⟨k, h⟩
  · exact Or.inl (by simp [h])
  · exact Or.inr ⟨k + 1, by rw [h]; ring⟩

/-- Every entry of the merged row is an input entry or the double of one. -/
theorem mem_compactMerge : ∀ (l : List Nat), ∀ v ∈ (compactMerge l).1, v ∈ l ∨ ∃ y ∈ l, v = y * 2
  | [] => by
    intro v hv
    simp [compactMerge] at hv
  | [x] => by
    intro v hv
    simp [compactMerge] at hv
    exact Or.inl (by simp [hv])
  | x :: y :: rest => by
    intro v hv
    by_cases h : x = y
    · have he : (compactMerge (x :: y :: rest)).1 = x * 2 :: (compactMerge rest).1 := by
        simp [compactMerge, h]
      rw [he] at hv
      rcases List.mem_cons.mp hv with hv | hv
      · exact Or.inr ⟨x, by simp, hv⟩
      · rcases mem_compactMerge rest v hv with h2 | ⟨z, hz, hze⟩
        · exact Or.inl (by simp [h2])
        · exact Or.inr ⟨z, by simp [hz], hze⟩
    · have he : (compactMerge (x :: y :: rest)).1 = x :: (compactMerge (y :: rest)).1 := by
        simp [compactMerge, h]
      rw [he] at hv
      rcases List.mem_cons.mp hv with hv | hv
      · exact Or.inl (by simp [hv])
      · rcases mem_compactMerge (y :: rest) v hv with h2 | ⟨z, hz, hze⟩
        · exact Or.inl (List.mem_cons_of_mem x h2)
        · exact Or.inr ⟨z, List.mem_cons_of_mem x hz, hze⟩

theorem moveLeftRow_valid (size : Nat) (row : List Nat) (h : ∀ v ∈ row, validCell v) :
    ∀ v ∈ (moveLeftRow size row).1, validCell v := by
  intro v hv
  unfold moveLeftRow at hv
  dsimp only at hv
  rcases List.mem_append.mp hv with hv | hv
  · rcases mem_compactMerge _ v hv with h2 | ⟨y, hy, hye⟩
    · exact h v (List.mem_of_mem_filter h2)
    · rw [hye]
      exact validCell_double y (h y (List.mem_of_mem_filter hy))
  · rw [List.eq_of_mem_replicate hv]
    exact validCell_zero

theorem moveLeftRows_valid (size : Nat) : ∀ (i : Nat) (rows : List (List Nat)),
    (∀ row ∈ rows, ∀ v ∈ row, validCell v) →
    validGrid (moveLeftRows size i rows).grid
  | _, [], _ => by
    intro row hrow
    simp [moveLeftRows] at hrow
  | i, r :: rest, h => by
    intro row hrow
    have he : (moveLeftRows size i (r :: rest)).grid =
        (moveLeftRow size r).1 :: (moveLeftRows size (i + 1) rest).grid := rfl
    rw [he] at hrow
    rcases List.mem_cons.mp hrow with hrow | hrow
    · rw [hrow]
      exact moveLeftRow_valid size r (h r (by simp))
    · exact moveLeftRows_valid size (i + 1) rest
        (fun rr hrr => h rr (List.mem_cons_of_mem r hrr)) row hrow

theorem transpose_valid (g : Grid) (h : validGrid g) : validGrid (transpose g) := by
  intro row hrow v hv
  unfold transpose at hrow
  obtain ⟨j, hj, hje⟩ := List.mem_map.mp hrow
  rw [← hje] at hv
  obtain ⟨r, hr, hre⟩ := List.mem_map.mp hv
  by_cases hlt : j < r.length
  · rw [← hre, List.getD_eq_getElem r 0 hlt]
    exact h r hr _ (List.getElem_mem hlt)
  · rw [← hre, List.getD_eq_default r 0 (by omega)]
    exact validCell_zero

theorem reverse_rows_valid (g : Grid) (h : validGrid g) : validGrid (g.map List.reverse) := by
  intro row hrow v hv
  obtain ⟨r, hr, hre⟩ := List.mem_map.mp hrow
  rw [← hre] at hv
  exact h r hr v (List.mem_reverse.mp hv)

theorem rotateGrid_valid (g : Grid) (d : Direction) (rev : Bool) (h : validGrid g) :
    validGrid (rotateGrid g d rev) := by
  cases d with
  | left => exact h
  | right => exact reverse_rows_valid g h
  | up => exact transpose_valid g h
  | down => exact reverse_rows_valid (transpose g) (transpose_valid g h)

theorem setCell_valid (g : Grid) (i j v : Nat) (h : validGrid g) (hv : validCell v) :
    validGrid (setCell g i j v) := by
  intro row hrow w hw
  unfold setCell at hrow
  rcases List.mem_or_eq_of_mem_set hrow with hrow | hrow
  · exact h row hrow w hw
  · subst hrow
    rcases List.mem_or_eq_of_mem_set hw with hw | hw
    · by_cases hlt : i < g.length
      · rw [List.getD_eq_getElem g [] hlt] at hw
        exact h _ (List.getElem_mem hlt) w hw
      · rw [List.getD_eq_default g [] (by omega)] at hw
        simp at hw
    · rw [hw]
      exact hv

theorem addRandomTile_valid (g : Game) (c : Nat) (four : Bool) (h : validGrid g.grid) :
    validGrid (addRandomTile g c four).grid := by
  unfold addRandomTile
  dsimp only
  split
  · exact h
  · dsimp only
    refine setCell_valid _ _ _ _ h ?_
    split
    · exact validCell_four
    · exact validCell_two

/-- The reachability invariant: the live grid and all grids saved in the
history hold only legal tile values. -/
def InvGame (g : Game) : Prop :=
  validGrid g.grid ∧ ∀ st ∈ g.history, validGrid st.grid

theorem saveState_inv (g : Game) (h : InvGame g) : InvGame (saveState g) := by
  obtain ⟨h1, h2⟩ := h
  refine ⟨h1, ?_⟩
  intro st hst
  unfold saveState at hst
  dsimp only at hst
  have hmem : st ∈ ({ grid := g.grid, score := g.score } : Snapshot) :: g.history := by
    split at hst
    · exact List.mem_of_mem_dropLast hst
    · exact hst
  rcases List.mem_cons.mp hmem with he | hmem2
  · rw [he]
    exact h1
  · exact h2 st hmem2

theorem move_inv (g : Game) (d : Direction) (c : Nat) (four : Bool) (h : InvGame g) :
    InvGame (move g d c four).1 := by
  by_cases hov : g.over = true
  · unfold move
    rw [if_pos hov]
    exact h
  · have hov' : g.over = false := by simpa using hov
    have hsave := saveState_inv g h
    have hrot : validGrid (rotateGrid g.grid d) := rotateGrid_valid g.grid d false h.1
    have hml : validGrid (moveLeft g.size (rotateGrid g.grid d)).grid :=
      moveLeftRows_valid g.size 0 (rotateGrid g.grid d) hrot
    have hcommit : InvGame (moveCommit g d) :=
      ⟨rotateGrid_valid (moveLeft g.size (rotateGrid g.grid d)).grid d true hml, hsave.2⟩
    have hspawn : InvGame (moveSpawned g d c four) := by
      refine ⟨addRandomTile_valid (moveCommit g d) c four hcommit.1, ?_⟩
      rw [moveSpawned_history]
      exact hsave.2
    by_cases hm : (moveLeft g.size (rotateGrid g.grid d)).moved = true
    · rw [move_eq_of_moved g d c four hov' hm]
      dsimp only
      exact ⟨hspawn.1, hspawn.2⟩
    · rw [move_eq_of_not_moved g d c four hov' (by simpa using hm)]
      exact ⟨hcommit.1, hcommit.2⟩

theorem undo_inv (g : Game) (h : InvGame g) : InvGame (undo g).1 := by
  rcases hh : g.history with _ | ⟨st, t⟩
  · rw [undo_of_history_nil g hh]
    exact h
  · rw [undo_of_history_cons g st t hh]
    refine ⟨h.2 st (by rw [hh]; simp), ?_⟩
    intro s hs
    exact h.2 s (by rw [hh]; exact List.mem_cons_of_mem st hs)

theorem initState_inv (c1 : Nat) (f1 : Bool) (c2 : Nat) (f2 : Bool) :
    InvGame (initState c1 f1 c2 f2) := by
  unfold initState
  dsimp only
  refine ⟨?_, ?_⟩
  · refine addRandomTile_valid _ c2 f2 (addRandomTile_valid _ c1 f1 ?_)
    intro row hrow v hv
    rw [List.eq_of_mem_replicate hrow] at hv
    rw [List.eq_of_mem_replicate hv]
    exact validCell_zero
  · intro st hst
    rw [addRandomTile_history, addRandomTile_history] at hst
    simp at hst

theorem run_inv (g : Game) : ∀ steps : List Step, InvGame g → InvGame (run g steps).1
  | [], h => h
  | s :: rest, h => by
    have hstep : InvGame (stepRun g s).1 := by
      cases s with
      | mv d c four => exact move_inv g d c four h
      | und => exact undo_inv g h
    exact run_inv (stepRun g s).1 rest hstep

/-- C9: in every state reachable from initialization by any sequence of
move and undo calls, with any outcomes of the random tile spawner, every
cell of the grid is 0 or a power of two that is at least 2. -/
theorem c9_reachable_cells_valid (c1 : Nat) (f1 : Bool) (c2 : Nat) (f2 : Bool)
    (steps : List Step) :
    validGrid (run (initState c1 f1 c2 f2) steps).1.grid :=
  (run_inv (initState c1 f1 c2 f2) steps (initState_inv c1 f1 c2 f2)).1


/-- C8: within one game session, over every sequence of move and undo
requests with any spawn outcomes, the `onWin` callback fires at most once,
no matter whether the target value 2048 stays on the board or disappears
again. -/
theorem c8_win_fires_at_most_once (c1 : Nat) (f1 : Bool) (c2 : Nat) (f2 : Bool)
    (steps : List Step) :
    winEvents (run (initState c1 f1 c2 f2) steps).2 ≤ 1 := by
  have h := run_winEvents_le (initState c1 f1 c2 f2) steps
  have hw : wonPot (initState c1 f1 c2 f2) = 1 := by
    simp [wonPot, initState_won]
  omega

end Game2048
